import Mathlib

/-!
Shallow embedding of the `ceres-solver-rs` safe binding layer
(files `src/parameter_block.rs`, `src/parameters.rs`, `src/cost.rs`,
`src/error.rs`, `src/nlls_problem.rs`, `src/curve_fit.rs`).

Modelling conventions:
* `f64` values are Lean `Float`; no claim depends on float arithmetic,
  floats are only moved around.
* A raw `*mut f64` pointer is modelled as an abstract address `Nat`.
  `ParameterBlock.pointer` models the value of `values.as_mut_ptr()` taken
  at construction time, i.e. the address of the pinned heap buffer that
  holds the block's values.  Nullable pointers are `Option Nat`.
* Native flat memory read through raw pointers is a function `Nat → Float`.
* Fallible Rust functions returning `Result` become `Except`; a Rust
  `assert!`/`unwrap` panic is modelled as `Option.none` at the outermost
  level of the corresponding operation.
* FFI calls into the native ceres engine are recorded in an explicit
  `NativeTrace` value so that claims about which native entry points get
  invoked (and how many times) are statable.
-/

namespace CeresRs

/-- Error type of `ParameterBlockStorage` operations (`src/error.rs`,
`ParameterBlockStorageError`). -/
inductive ParameterBlockStorageError where
  | indexOutOfBounds (index : Nat) (len : Nat)
  deriving DecidableEq, Repr

/-- Error type of `ResidualBlockBuilder::build_into_problem`
(`src/error.rs`, `ResidualBlockBuildingError`). -/
inductive ResidualBlockBuildingError where
  | missingCost
  | missingParameters
  | parameterBlockStorageError (e : ParameterBlockStorageError)
  deriving DecidableEq, Repr

/-- Error type of `NllsProblem::solve` (`src/error.rs`, `NllsProblemError`). -/
inductive NllsProblemError where
  | noResidualBlocks
  deriving DecidableEq, Repr

/-- Error type of `CurveFitProblem1DBuilder::build` (`src/error.rs`,
`CurveFitProblemBuildError`). -/
inductive CurveFitProblemBuildError where
  | dataSizesDontMatch
  | funcMissed
  | xMissed
  | yMissed
  | parametersMissed
  | lowerBoundarySizeMismatch
  | upperBoundarySizeMismatch
  | parameterBlockStorageError (e : ParameterBlockStorageError)
  deriving DecidableEq, Repr

/-- The struct `ParameterBlock` of `src/parameter_block.rs`: a pinned vector
of values, the raw pointer to its buffer recorded at construction, and
optional per-component bounds. -/
structure ParameterBlock where
  values : List Float
  pointer : Nat
  lower_bounds : Option (List (Option Float))
  upper_bounds : Option (List (Option Float))

/-- Constructor used internally once the `assert!(!values.is_empty())` of
`ParameterBlock::new` is known to pass: pins `values` at address `addr` and
records `pointer = values.as_mut_ptr() = addr`. -/
def ParameterBlock.pinned (values : List Float) (addr : Nat) : ParameterBlock :=
  { values := values, pointer := addr, lower_bounds := none, upper_bounds := none }

/-- The public constructor `ParameterBlock::new` (`src/parameter_block.rs`
lines 18-28).  `addr` is the address at which the allocator pins the values
buffer.  The `assert!(!values.is_empty())` panic is modelled by `none`. -/
def ParameterBlock.new (values : List Float) (addr : Nat) : Option ParameterBlock :=
  if values.isEmpty then none else some (ParameterBlock.pinned values addr)

/-- Method `ParameterBlock::len`. -/
def ParameterBlock.len (b : ParameterBlock) : Nat :=
  b.values.length

/-- Method `ParameterBlock::pointer_mut`: returns the pointer recorded at
construction. -/
def ParameterBlock.pointer_mut (b : ParameterBlock) : Nat :=
  b.pointer

/-- Method `ParameterBlock::to_values` (`Pin::into_inner(self.values)`). -/
def ParameterBlock.to_values (b : ParameterBlock) : List Float :=
  b.values

/-- The enum `ParameterBlockOrIndex` of `src/parameter_block.rs`. -/
inductive ParameterBlockOrIndex where
  | block (b : ParameterBlock)
  | index (i : Nat)

/-- The struct `ParameterBlockStorage` of `src/parameter_block.rs`. -/
structure ParameterBlockStorage where
  storage : List ParameterBlock

/-- The constructor `ParameterBlockStorage::new`. -/
def ParameterBlockStorage.new : ParameterBlockStorage :=
  { storage := [] }

/-- Loop body of `ParameterBlockStorage::extend` (`src/parameter_block.rs`
lines 130-155), processing the input entries strictly in order.  The Rust
method mutates `self` through `&mut self` and returns
`Result<Vec<usize>, _>`; the embedding threads the mutated storage
explicitly, so the result is the pair of the storage after the call and the
`Result` value.  On error the blocks appended so far stay appended, exactly
as in the source. -/
def extendLoop (s : List ParameterBlock) :
    List ParameterBlockOrIndex →
      List ParameterBlock × Except ParameterBlockStorageError (List Nat)
  | [] => (s, Except.ok [])
  | ParameterBlockOrIndex.block b :: rest =>
    let r := extendLoop (s ++ [b]) rest
    (r.1, r.2.map fun idxs => s.length :: idxs)
  | ParameterBlockOrIndex.index i :: rest =>
    if s.length ≤ i then
      (s, Except.error (ParameterBlockStorageError.indexOutOfBounds i s.length))
    else
      let r := extendLoop s rest
      (r.1, r.2.map fun idxs => i :: idxs)

/-- Method `ParameterBlockStorage::extend`. -/
def ParameterBlockStorage.extend (s : ParameterBlockStorage)
    (parameter_blocks : List ParameterBlockOrIndex) :
    ParameterBlockStorage × Except ParameterBlockStorageError (List Nat) :=
  let r := extendLoop s.storage parameter_blocks
  ({ storage := r.1 }, r.2)

/-- Method `ParameterBlockStorage::blocks`. -/
def ParameterBlockStorage.blocks (s : ParameterBlockStorage) : List ParameterBlock :=
  s.storage

/-- Method `ParameterBlockStorage::get_block`. -/
def ParameterBlockStorage.get_block (s : ParameterBlockStorage) (index : Nat) :
    Except ParameterBlockStorageError ParameterBlock :=
  match s.storage.get? index with
  | some b => Except.ok b
  | none =>
    Except.error (ParameterBlockStorageError.indexOutOfBounds index s.storage.length)

/-- Method `ParameterBlockStorage::to_values`. -/
def ParameterBlockStorage.to_values (s : ParameterBlockStorage) : List (List Float) :=
  s.storage.map ParameterBlock.to_values

/-- Iterated `extend`: the storage resulting from a sequence of `extend`
calls (each call's resolved index list is discarded). -/
def ParameterBlockStorage.extendMany (s : ParameterBlockStorage)
    (calls : List (List ParameterBlockOrIndex)) : ParameterBlockStorage :=
  calls.foldl (fun st c => (st.extend c).1) s

/-- Number of new-block entries in an input list of `extend`. -/
def countBlocks : List ParameterBlockOrIndex → Nat
  | [] => 0
  | ParameterBlockOrIndex.block _ :: rest => countBlocks rest + 1
  | ParameterBlockOrIndex.index _ :: rest => countBlocks rest

/-- The new blocks carried by an input list of `extend`, in order. -/
def newBlocks : List ParameterBlockOrIndex → List ParameterBlock
  | [] => []
  | ParameterBlockOrIndex.block b :: rest => b :: newBlocks rest
  | ParameterBlockOrIndex.index _ :: rest => newBlocks rest

/-! Embedding of `src/cost.rs`: the callback bridge.  Native flat memory of
`f64` cells is a function `Mem : Nat → Float`; the bridged closure receives
the data it observes as values and returns its boolean result.  Writes the
closure performs into the residual and Jacobian buffers are native-side
effects outside the model: the claims below are about the shapes and
contents the closure observes and about the returned boolean. -/

/-- Native flat memory of `f64` cells, addressed by `Nat`. -/
def Mem : Type := Nat → Float

/-- The slice `slice::from_raw_parts(p, size)`: `size` consecutive cells
starting at address `p`. -/
def readSlice (mem : Mem) (p : Nat) : Nat → List Float
  | 0 => []
  | n + 1 => mem p :: readSlice mem (p + 1) n

/-- The iterator `chunks_exact(k)` on a slice: the list of consecutive full
chunks of length `k`; a trailing remainder shorter than `k` is dropped.
(`chunks_exact` panics for `k = 0` in Rust; the bridge only calls it with
the positive parameter sizes of registered blocks.) -/
def chunksExact (k : Nat) (l : List Float) : List (List Float) :=
  if h : k = 0 ∨ l.length < k then []
  else
    have : l.length - k < l.length := by
      rcases Nat.lt_or_ge l.length k with hlt | hge
      · exact absurd (Or.inr hlt) h
      · have hk : 0 < k := Nat.pos_of_ne_zero fun hk0 => h (Or.inl hk0)
        exact Nat.sub_lt (Nat.lt_of_lt_of_le hk hge) hk
    l.take k :: chunksExact k (l.drop k)
  termination_by l.length
  decreasing_by simpa using this

/-- Type of the safe cost closure `CostFunctionType`
(`src/cost.rs` line 7): parameters, residuals, optional jacobians, boolean
result. -/
def CostClosure : Type :=
  List (List Float) → List Float → Option (List (Option (List (List Float)))) → Bool

/-- Function `OwnedDerivative::from_pointer` (`src/cost.rs` lines 110-122):
a null pointer yields `None`; a non-null pointer to a flat buffer of
`parameter_size * num_residuals` cells yields the buffer reinterpreted as
`num_residuals` row-chunks of length `parameter_size`. -/
def OwnedDerivative.from_pointer (mem : Mem) (pointer : Option Nat)
    (parameter_size num_residuals : Nat) : Option (List (List Float)) :=
  match pointer with
  | none => none
  | some p => some (chunksExact parameter_size (readSlice mem p (parameter_size * num_residuals)))

/-- Function `OwnedJacobian::from_pointer` (`src/cost.rs` lines 79-106).
The nullable array of per-parameter-block pointers is
`Option (Nat → Option Nat)`: `none` models a null outer pointer, and in the
non-null case the native array holds one possibly-null pointer per block,
of which the bridge reads exactly `parameter_sizes.len()` entries and zips
them with the sizes. -/
def OwnedJacobian.from_pointer (mem : Mem) (pointer : Option (Nat → Option Nat))
    (parameter_sizes : List Nat) (num_residuals : Nat) :
    Option (List (Option (List (List Float)))) :=
  match pointer with
  | none => none
  | some jp =>
    some ((((List.range parameter_sizes.length).map jp).zip parameter_sizes).map
      fun ps => OwnedDerivative.from_pointer mem ps.1 ps.2 num_residuals)

/-- The parameter views the bridged closure observes: the bridge reads
`parameter_sizes.len()` parameter pointers from the native pointer array
`paramPtr` and reconstructs one slice of the declared size per pointer
(`src/cost.rs` lines 47-53). -/
def bridgedParameters (mem : Mem) (paramPtr : Nat → Nat) (parameter_sizes : List Nat) :
    List (List Float) :=
  ((((List.range parameter_sizes.length).map paramPtr).zip parameter_sizes)).map
    fun ps => readSlice mem ps.1 ps.2

/-- The rust closure built by `CostFunction::new` (`src/cost.rs` lines
44-63), as invoked by the native side: reconstructs the parameter slices,
the residual slice and the Jacobian views, calls the wrapped safe closure
on them and hands back its boolean result. -/
def CostFunction.call (safe_func : CostClosure) (parameter_sizes : List Nat)
    (num_residuals : Nat) (mem : Mem) (paramPtr : Nat → Nat) (residuals_ptr : Nat)
    (jacobians_ptr : Option (Nat → Option Nat)) : Bool :=
  safe_func
    (bridgedParameters mem paramPtr parameter_sizes)
    (readSlice mem residuals_ptr num_residuals)
    (OwnedJacobian.from_pointer mem jacobians_ptr parameter_sizes num_residuals)

/-- The struct `Parameters` of `src/parameters.rs`.  The cached
`sizes_c_int` and `pointers` fields are FFI plumbing derived from `values`
(the `c_int` copy of `sizes` and the per-vector buffer addresses); only
`values` and `sizes` carry model-level information. -/
structure Parameters where
  values : List (List Float)
  sizes : List Nat

/-- The constructor `Parameters::new` (`src/parameters.rs` lines 17-29).
The `assert!(!values.is_empty())` panic is modelled by `none`. -/
def Parameters.new (values : List (List Float)) : Option Parameters :=
  if values.isEmpty then none
  else some { values := values, sizes := values.map List.length }

/-- Method `Parameters::len`. -/
def Parameters.len (p : Parameters) : Nat :=
  p.sizes.length

/-! Embedding of `src/residual_block.rs` and `src/nlls_problem.rs`.  Calls
into the native ceres engine (`ffi::add_residual_block`,
`Problem::SetParameterLowerBound`, `Problem::SetParameterUpperBound`,
`ffi::solve`) are recorded in a `NativeTrace` value. -/

/-- Opaque native loss-function handle; its content is irrelevant to every
claim (it is passed through to the native engine verbatim). -/
structure LossFunction where

/-- The struct `ResidualBlock` of `src/residual_block.rs`: the opaque
native residual-block id and the pinned array of raw parameter pointers. -/
structure ResidualBlock where
  id : Nat
  parameter_pointers : List Nat

/-- One native `SetParameterLowerBound` / `SetParameterUpperBound` call:
the block pointer, the component index and the bound value passed. -/
structure BoundCall where
  pointer : Nat
  component : Nat
  value : Float

/-- Record of the native-engine calls made by a `build_into_problem` or
`solve` call. -/
structure NativeTrace where
  add_residual_block_calls : Nat
  lower_bound_calls : List BoundCall
  upper_bound_calls : List BoundCall

/-- The empty native trace: no native entry point invoked. -/
def NativeTrace.empty : NativeTrace :=
  { add_residual_block_calls := 0, lower_bound_calls := [], upper_bound_calls := [] }

/-- The struct `NllsProblem` of `src/nlls_problem.rs`: the parameter
storage and the registered residual blocks (the opaque native
`ffi::Problem` handle carries no model-level state of its own). -/
structure NllsProblem where
  parameter_storage : ParameterBlockStorage
  residual_blocks : List ResidualBlock

/-- The constructor `NllsProblem::new`. -/
def NllsProblem.new : NllsProblem :=
  { parameter_storage := ParameterBlockStorage.new, residual_blocks := [] }

/-- Solution struct `NllsProblemSolution`; the opaque `SolverSummary` is
dropped from the model. -/
structure NllsProblemSolution where
  parameters : List (List Float)

/-- Method `NllsProblem::solve` (`src/nlls_problem.rs` lines 344-367).  The
second component counts the invocations of the native `ffi::solve` entry
point performed by the call. -/
def NllsProblem.solve (p : NllsProblem) :
    Except NllsProblemError NllsProblemSolution × Nat :=
  if p.residual_blocks.isEmpty then
    (Except.error NllsProblemError.noResidualBlocks, 0)
  else
    (Except.ok { parameters := p.parameter_storage.to_values }, 1)

/-- The struct `ResidualBlockBuilder` of `src/nlls_problem.rs`.  The cost
is the safe closure together with `num_residuals`. -/
structure ResidualBlockBuilder where
  problem : NllsProblem
  cost : Option (CostClosure × Nat)
  loss : Option LossFunction
  parameters : List ParameterBlockOrIndex

/-- Method `NllsProblem::residual_block_builder`. -/
def NllsProblem.residual_block_builder (p : NllsProblem) : ResidualBlockBuilder :=
  { problem := p, cost := none, loss := none, parameters := [] }

/-- Method `ResidualBlockBuilder::set_cost`. -/
def ResidualBlockBuilder.set_cost (b : ResidualBlockBuilder) (func : CostClosure)
    (num_residuals : Nat) : ResidualBlockBuilder :=
  { b with cost := some (func, num_residuals) }

/-- Method `ResidualBlockBuilder::set_loss`. -/
def ResidualBlockBuilder.set_loss (b : ResidualBlockBuilder) (loss : LossFunction) :
    ResidualBlockBuilder :=
  { b with loss := some loss }

/-- Method `ResidualBlockBuilder::set_parameters`. -/
def ResidualBlockBuilder.set_parameters (b : ResidualBlockBuilder)
    (parameters : List ParameterBlockOrIndex) : ResidualBlockBuilder :=
  { b with parameters := parameters }

/-- Method `ResidualBlockBuilder::add_parameter`. -/
def ResidualBlockBuilder.add_parameter (b : ResidualBlockBuilder)
    (parameter_block : ParameterBlockOrIndex) : ResidualBlockBuilder :=
  { b with parameters := b.parameters ++ [parameter_block] }

/-- Lookup of a resolved parameter index in the storage vector.  At every
use site below the index is known to be valid (comment in the source: "At
this point we know that all parameter indices are valid."), so the default
arm is unreachable. -/
def blockAt (storage : List ParameterBlock) (i : Nat) : ParameterBlock :=
  (storage.get? i).getD (ParameterBlock.pinned [] 0)

/-- The inner loop `for (i, lb) in bounds.iter().enumerate()` of the bound
propagation in `build_into_problem`: one native call per `Some` component,
none per `None` component, components enumerated from `i0`. -/
def boundCallsFrom (ptr : Nat) (i0 : Nat) : List (Option Float) → List BoundCall
  | [] => []
  | none :: rest => boundCallsFrom ptr (i0 + 1) rest
  | some v :: rest => { pointer := ptr, component := i0, value := v } :: boundCallsFrom ptr (i0 + 1) rest

/-- The native `SetParameterLowerBound` calls issued for one block: none
when the block declares no lower bounds. -/
def blockLowerCalls (b : ParameterBlock) : List BoundCall :=
  match b.lower_bounds with
  | none => []
  | some lbs => boundCallsFrom b.pointer 0 lbs

/-- The native `SetParameterUpperBound` calls issued for one block: none
when the block declares no upper bounds. -/
def blockUpperCalls (b : ParameterBlock) : List BoundCall :=
  match b.upper_bounds with
  | none => []
  | some ubs => boundCallsFrom b.pointer 0 ubs

/-- The outer loop `for &index in parameter_indices.iter()` of the bound
propagation: per-block calls concatenated in index order. -/
def boundsTrace (storage : List ParameterBlock) (idxs : List Nat)
    (callsOf : ParameterBlock → List BoundCall) : List BoundCall :=
  idxs.flatMap fun i => callsOf (blockAt storage i)

/-- Method `ResidualBlockBuilder::build_into_problem` (`src/nlls_problem.rs`
lines 445-536).  Mirrors the source order: empty-parameter check, storage
`extend` (with index errors propagated), cost check, native
`add_residual_block`, residual-block registration, then the lower- and
upper-bound propagation loops.  The fresh opaque residual-block id is
modelled by the number of previously registered blocks.  The result pairs
the `Result` value with the trace of native calls the invocation made. -/
def ResidualBlockBuilder.build_into_problem (bld : ResidualBlockBuilder) :
    Except ResidualBlockBuildingError (NllsProblem × Nat) × NativeTrace :=
  if bld.parameters.isEmpty then
    (Except.error ResidualBlockBuildingError.missingParameters, NativeTrace.empty)
  else
    match (bld.problem.parameter_storage.extend bld.parameters).2,
        (bld.problem.parameter_storage.extend bld.parameters).1 with
    | Except.error e, _ =>
      (Except.error (ResidualBlockBuildingError.parameterBlockStorageError e),
        NativeTrace.empty)
    | Except.ok parameter_indices, storage =>
      let parameter_pointers :=
        parameter_indices.map fun index => (blockAt storage.storage index).pointer_mut
      match bld.cost with
      | none => (Except.error ResidualBlockBuildingError.missingCost, NativeTrace.empty)
      | some _ =>
        let residual_block_id := bld.problem.residual_blocks.length
        let problem : NllsProblem :=
          { parameter_storage := storage,
            residual_blocks := bld.problem.residual_blocks ++
              [{ id := residual_block_id, parameter_pointers := parameter_pointers }] }
        (Except.ok (problem, residual_block_id),
          { add_residual_block_calls := 1,
            lower_bound_calls := boundsTrace storage.storage parameter_indices blockLowerCalls,
            upper_bound_calls := boundsTrace storage.storage parameter_indices blockUpperCalls })

/-! Embedding of `src/curve_fit.rs` (builder only, which claim C10 is
about). -/

/-- Type of the 1-D model function `CurveFunctionType` (`src/curve_fit.rs`
line 17), made pure: given the coordinate `x`, the current parameters and
the Jacobian-request mask (mirroring the `jac` buffer contents passed by
reference), it returns its boolean result together with the function value
and the Jacobian components it would write. -/
def CurveFunctionType : Type :=
  Float → List Float → Option (List (Option Float)) → Bool × Float × List (Option Float)

/-- Function `CurveFitProblem1D::cost_function` (`src/curve_fit.rs` lines
71-109): adapts a 1-D model function into a cost closure.  The writes the
closure performs into the residual and Jacobian buffers are outside the
model (the model closure returns only its boolean); the returned boolean
is that of the last model-function call of the data loop, `true` when the
loop body never runs, exactly as the `result` variable in the source. -/
def CurveFitProblem1D.cost_function (x y : List Float) (inv_err : Option (List Float))
    (curve_func : CurveFunctionType) : CostClosure :=
  fun parameters residuals jacobians =>
    let params1 : List Float := parameters.map fun p => p.headD 0
    let jreq : Option (List (Option Float)) :=
      jacobians.map fun jac => jac.map fun der => der.map fun _ => (0 : Float)
    let n : Nat :=
      min (min x.length y.length)
        (match inv_err with
         | some ie => min ie.length residuals.length
         | none => residuals.length)
    (List.range n).foldl (fun _result i => (curve_func (x.getD i 0) params1 jreq).1) true

/-- The struct `CurveFitProblem1DBuilder` of `src/curve_fit.rs` lines
275-294. -/
structure CurveFitProblem1DBuilder where
  func : Option CurveFunctionType
  x : Option (List Float)
  y : Option (List Float)
  inverse_error : Option (List Float)
  parameters : Option (List Float)
  lower_bounds : Option (List (Option Float))
  upper_bounds : Option (List (Option Float))
  constant_parameters : Option (List Nat)
  loss : Option LossFunction

/-- Method `NllsProblem::set_parameter_block_constant` (`src/nlls_problem.rs`
lines 309-318): resolves the block and passes its raw pointer to the native
`SetParameterBlockConstant`; the returned value is the pointer passed
(problem-side state is native-only). -/
def NllsProblem.set_parameter_block_constant (p : NllsProblem) (block_index : Nat) :
    Except ParameterBlockStorageError Nat :=
  (p.parameter_storage.get_block block_index).map ParameterBlock.pointer_mut

/-- The loop over `constant_parameters` at the end of
`CurveFitProblem1DBuilder::build`: the list of native
`SetParameterBlockConstant` pointers, or the first index error. -/
def constantLoop (p : NllsProblem) : List Nat → Except ParameterBlockStorageError (List Nat)
  | [] => Except.ok []
  | i :: rest =>
    match p.set_parameter_block_constant i with
    | Except.error e => Except.error e
    | Except.ok ptr => (constantLoop p rest).map fun ptrs => ptr :: ptrs

/-- The lower-bound application loop of `CurveFitProblem1DBuilder::build`
(`src/curve_fit.rs` lines 395-399): each `Some(lb)` replaces the (length-1)
block's lower bounds with `vec![Some(lb)]`; `None` leaves the block
untouched. -/
def applyLowerBounds (blocks : List ParameterBlock) (lbs : List (Option Float)) :
    List ParameterBlock :=
  (blocks.zip lbs).map fun bl =>
    match bl.2 with
    | none => bl.1
    | some lb => { bl.1 with lower_bounds := some [some lb] }

/-- Tail of `CurveFitProblem1DBuilder::build` after the parameter blocks
have been assembled and lower bounds applied (`src/curve_fit.rs` lines
402-418): residual-block construction through `build_into_problem` (whose
`.unwrap()` panic is modelled by `none`) and the constant-parameter loop. -/
def curveFitBuildTail (x y : List Float) (inverse_error : Option (List Float))
    (func : CurveFunctionType) (loss : Option LossFunction)
    (constant_parameters : Option (List Nat)) (blocks : List ParameterBlock) :
    Option (Except CurveFitProblemBuildError (NllsProblem × NativeTrace × List Nat)) :=
  let bld0 := (NllsProblem.new.residual_block_builder).set_cost
    (CurveFitProblem1D.cost_function x y inverse_error func) x.length
  let bld1 := match loss with
    | some l => bld0.set_loss l
    | none => bld0
  match (bld1.set_parameters (blocks.map ParameterBlockOrIndex.block)).build_into_problem with
  | (Except.error _, _) => none
  | (Except.ok (problem, _block_id), trace) =>
    match constant_parameters with
    | none => some (Except.ok (problem, trace, []))
    | some idxs =>
      match constantLoop problem idxs with
      | Except.error e =>
        some (Except.error (CurveFitProblemBuildError.parameterBlockStorageError e))
      | Except.ok ptrs => some (Except.ok (problem, trace, ptrs))

/-- Method `CurveFitProblem1DBuilder::build` (`src/curve_fit.rs` lines
372-419).  Mirrors the source order: mandatory-field checks, data-length
checks, parameter blocks built from the scalar initial guesses (fresh pin
addresses modelled by position), lower-bound application (upper bounds are
dead: the source holds only a `TODO: upper bounds` comment there), residual
block construction through `build_into_problem`, and the
constant-parameter loop.  The `.unwrap()` panic on the `build_into_problem`
result is modelled by the outer `none`.  A successful build returns the
problem together with the native trace of the inner `build_into_problem`
and the pointers passed to native `SetParameterBlockConstant`. -/
def CurveFitProblem1DBuilder.build (b : CurveFitProblem1DBuilder) :
    Option (Except CurveFitProblemBuildError (NllsProblem × NativeTrace × List Nat)) :=
  match b.func with
  | none => some (Except.error CurveFitProblemBuildError.funcMissed)
  | some func =>
    match b.x with
    | none => some (Except.error CurveFitProblemBuildError.xMissed)
    | some x =>
      match b.y with
      | none => some (Except.error CurveFitProblemBuildError.yMissed)
      | some y =>
        if x.length ≠ y.length then
          some (Except.error CurveFitProblemBuildError.dataSizesDontMatch)
        else if (match b.inverse_error with
                 | some ie => decide (ie.length ≠ x.length)
                 | none => false) then
          some (Except.error CurveFitProblemBuildError.dataSizesDontMatch)
        else
          match b.parameters with
          | none => some (Except.error CurveFitProblemBuildError.parametersMissed)
          | some params =>
            let nlls_parameters : List ParameterBlock :=
              params.enum.map fun ip => ParameterBlock.pinned [ip.2] ip.1
            match b.lower_bounds with
            | some lbs =>
              if lbs.length ≠ nlls_parameters.length then
                some (Except.error CurveFitProblemBuildError.lowerBoundarySizeMismatch)
              else
                curveFitBuildTail x y b.inverse_error func b.loss b.constant_parameters
                  (applyLowerBounds nlls_parameters lbs)
            | none =>
              curveFitBuildTail x y b.inverse_error func b.loss b.constant_parameters
                nlls_parameters

/-! Helper lemmas about `extendLoop` / `ParameterBlockStorage.extend`. -/

lemma extendLoop_storage_exists (entries : List ParameterBlockOrIndex) :
    ∀ s : List ParameterBlock, ∃ t, (extendLoop s entries).1 = s ++ t := by
  induction entries with
  | nil => intro s; exact ⟨[], by simp [extendLoop]⟩
  | cons e rest ih =>
    intro s
    cases e with
    | block b =>
      obtain ⟨t, ht⟩ := ih (s ++ [b])
      exact ⟨[b] ++ t, by simp [extendLoop, ht]⟩
    | index i =>
      by_cases h : s.length ≤ i
      · exact ⟨[], by simp [extendLoop, h]⟩
      · obtain ⟨t, ht⟩ := ih s
        exact ⟨t, by simp [extendLoop, h, ht]⟩

lemma extend_get?_preserved (s : ParameterBlockStorage) (c : List ParameterBlockOrIndex)
    (i : Nat) (b : ParameterBlock) (h : s.storage.get? i = some b) :
    ((s.extend c).1).storage.get? i = some b := by
  obtain ⟨t, ht⟩ := extendLoop_storage_exists c s.storage
  have hlt : i < s.storage.length := by
    rcases List.get?_eq_some.mp h with ⟨hl, _⟩
    exact hl
  simp only [ParameterBlockStorage.extend, ht]
  rw [List.get?_append hlt]
  exact h

lemma extendMany_get?_preserved (calls : List (List ParameterBlockOrIndex)) :
    ∀ (s : ParameterBlockStorage) (i : Nat) (b : ParameterBlock),
      s.storage.get? i = some b → (s.extendMany calls).storage.get? i = some b := by
  induction calls with
  | nil => intro s i b h; exact h
  | cons c rest ih =>
    intro s i b h
    exact ih ((s.extend c).1) i b (extend_get?_preserved s c i b h)

lemma countBlocks_eq_length_newBlocks (l : List ParameterBlockOrIndex) :
    countBlocks l = (newBlocks l).length := by
  induction l with
  | nil => rfl
  | cons e rest ih =>
    cases e with
    | block b => simp [countBlocks, newBlocks, ih]
    | index i => simp [countBlocks, newBlocks, ih]

lemma extendLoop_ok_storage (entries : List ParameterBlockOrIndex) :
    ∀ (s : List ParameterBlock) (idxs : List Nat),
      (extendLoop s entries).2 = Except.ok idxs →
      (extendLoop s entries).1 = s ++ newBlocks entries := by
  induction entries with
  | nil => intro s idxs _; simp [extendLoop, newBlocks]
  | cons e rest ih =>
    intro s idxs h
    cases e with
    | block b =>
      simp only [extendLoop] at h ⊢
      match hrec : (extendLoop (s ++ [b]) rest).2 with
      | Except.error e0 => rw [hrec] at h; simp [Except.map] at h
      | Except.ok idxs0 =>
        rw [ih (s ++ [b]) idxs0 hrec, newBlocks]
        simp
    | index i =>
      by_cases hle : s.length ≤ i
      · simp [extendLoop, hle] at h
      · simp only [extendLoop, if_neg hle] at h ⊢
        match hrec : (extendLoop s rest).2 with
        | Except.error e0 => rw [hrec] at h; simp [Except.map] at h
        | Except.ok idxs0 => rw [ih s idxs0 hrec, newBlocks]

lemma extendLoop_ok_length (entries : List ParameterBlockOrIndex)
    (s : List ParameterBlock) (idxs : List Nat)
    (h : (extendLoop s entries).2 = Except.ok idxs) :
    (extendLoop s entries).1.length = s.length + countBlocks entries := by
  rw [extendLoop_ok_storage entries s idxs h, List.length_append,
    countBlocks_eq_length_newBlocks]

lemma extendLoop_append_ok (l₁ : List ParameterBlockOrIndex) :
    ∀ (s : List ParameterBlock) (i₁ : List Nat) (l₂ : List ParameterBlockOrIndex),
      (extendLoop s l₁).2 = Except.ok i₁ →
      (extendLoop s (l₁ ++ l₂)).1 = (extendLoop (extendLoop s l₁).1 l₂).1 ∧
      (extendLoop s (l₁ ++ l₂)).2 =
        ((extendLoop (extendLoop s l₁).1 l₂).2).map fun i₂ => i₁ ++ i₂ := by
  induction l₁ with
  | nil =>
    intro s i₁ l₂ h
    simp only [extendLoop] at h
    obtain rfl : ([] : List Nat) = i₁ := by simpa using h
    constructor
    · simp [extendLoop]
    · simp only [extendLoop, List.nil_append]
      match (extendLoop s l₂).2 with
      | Except.error e0 => simp [Except.map]
      | Except.ok idxs0 => simp [Except.map]
  | cons e rest ih =>
    intro s i₁ l₂ h
    cases e with
    | block b =>
      simp only [extendLoop] at h ⊢
      match hrec : (extendLoop (s ++ [b]) rest).2 with
      | Except.error e0 => rw [hrec] at h; simp [Except.map] at h
      | Except.ok idxs0 =>
        rw [hrec] at h
        simp only [Except.map] at h
        obtain rfl : (s.length : Nat) :: idxs0 = i₁ := by simpa using h
        obtain ⟨h1, h2⟩ := ih (s ++ [b]) idxs0 l₂ hrec
        refine ⟨h1, ?_⟩
        simp only [List.append_eq]
        rw [h2]
        match (extendLoop (extendLoop (s ++ [b]) rest).1 l₂).2 with
        | Except.error e0 => simp [Except.map]
        | Except.ok idxs1 => simp [Except.map]
    | index i =>
      by_cases hle : s.length ≤ i
      · simp [extendLoop, hle] at h
      · simp only [extendLoop, if_neg hle, List.cons_append] at h ⊢
        match hrec : (extendLoop s rest).2 with
        | Except.error e0 => rw [hrec] at h; simp [Except.map] at h
        | Except.ok idxs0 =>
          rw [hrec] at h
          simp only [Except.map] at h
          obtain rfl : i :: idxs0 = i₁ := by simpa using h
          obtain ⟨h1, h2⟩ := ih s idxs0 l₂ hrec
          refine ⟨h1, ?_⟩
          simp only [List.append_eq]
          rw [h2]
          match (extendLoop (extendLoop s rest).1 l₂).2 with
          | Except.error e0 => simp [Except.map]
          | Except.ok idxs1 => simp [Except.map]

/-- Claim C1: a parameter block constructed by `ParameterBlock::new` with its
values buffer pinned at address `addr` and registered at index `i` of a
`ParameterBlockStorage` is returned unchanged by the storage after any number
of subsequent `extend` calls: growing the storage never changes a previously
registered block, so the raw pointer exposed by `pointer_mut` is identical
before and after, and the pointer recorded at construction equals the address
of the block's values buffer. -/
theorem claim_C1_pointer_stable_across_extend (values : List Float) (addr : Nat)
    (b : ParameterBlock) (hnew : ParameterBlock.new values addr = some b)
    (s : ParameterBlockStorage) (i : Nat) (hget : s.storage.get? i = some b)
    (calls : List (List ParameterBlockOrIndex)) :
    (s.extendMany calls).storage.get? i = some b
    ∧ ((s.extendMany calls).storage.get? i).map ParameterBlock.pointer_mut
        = (s.storage.get? i).map ParameterBlock.pointer_mut
    ∧ b.pointer_mut = addr ∧ b.values = values := by
  have hpres := extendMany_get?_preserved calls s i b hget
  have hb : ParameterBlock.pinned values addr = b := by
    unfold ParameterBlock.new at hnew
    split at hnew
    · exact Option.noConfusion hnew
    · exact Option.some.inj hnew
  refine ⟨hpres, by rw [hpres, hget], ?_, ?_⟩ <;> rw [← hb] <;> rfl

/-- Concrete instance of claim C1: a two-component block pinned at address 42
survives three further `extend` calls (one appending a block, one resolving
an index, one failing on an out-of-range index) at its original slot. -/
theorem claim_C1_witness :
    (ParameterBlockStorage.extendMany { storage := [ParameterBlock.pinned [1.0, 2.0] 42] }
        [[ParameterBlockOrIndex.block (ParameterBlock.pinned [3.0] 7)],
         [ParameterBlockOrIndex.index 0], [ParameterBlockOrIndex.index 5]]).storage.get? 0
      = some (ParameterBlock.pinned [1.0, 2.0] 42)
    ∧ (ParameterBlock.pinned [1.0, 2.0] 42).pointer_mut = 42 :=
  ⟨(claim_C1_pointer_stable_across_extend [1.0, 2.0] 42 (ParameterBlock.pinned [1.0, 2.0] 42)
      rfl { storage := [ParameterBlock.pinned [1.0, 2.0] 42] } 0 rfl
      [[ParameterBlockOrIndex.block (ParameterBlock.pinned [3.0] 7)],
       [ParameterBlockOrIndex.index 0], [ParameterBlockOrIndex.index 5]]).1,
   (claim_C1_pointer_stable_across_extend [1.0, 2.0] 42 (ParameterBlock.pinned [1.0, 2.0] 42)
      rfl { storage := [ParameterBlock.pinned [1.0, 2.0] 42] } 0 rfl []).2.2.1⟩

/-- Claim C6: `ParameterBlockStorage::extend` processes entries strictly in
order.  After a prefix `pre` that resolves successfully, an index entry `k`
resolves if and only if `k` is smaller than the storage length at that moment
(the original length plus the new blocks appended by `pre`); otherwise the
whole call fails with `IndexOutOfBounds` reporting exactly that index and
that length, regardless of any entries (in particular new blocks) appearing
later in the input. -/
theorem claim_C6_extend_in_order_validation (s : ParameterBlockStorage)
    (pre post : List ParameterBlockOrIndex) (k : Nat) (i₁ : List Nat)
    (hpre : (s.extend pre).2 = Except.ok i₁) :
    (s.storage.length + countBlocks pre ≤ k →
      (s.extend (pre ++ ParameterBlockOrIndex.index k :: post)).2
        = Except.error
            (ParameterBlockStorageError.indexOutOfBounds k
              (s.storage.length + countBlocks pre)))
    ∧ (k < s.storage.length + countBlocks pre →
      (s.extend (pre ++ [ParameterBlockOrIndex.index k])).2 = Except.ok (i₁ ++ [k])) := by
  have hpre' : (extendLoop s.storage pre).2 = Except.ok i₁ := hpre
  have hlen := extendLoop_ok_length pre s.storage i₁ hpre'
  constructor
  · intro hk
    have h2 := (extendLoop_append_ok pre s.storage i₁
      (ParameterBlockOrIndex.index k :: post) hpre').2
    have hout : (extendLoop (extendLoop s.storage pre).1
        (ParameterBlockOrIndex.index k :: post)).2
        = Except.error (ParameterBlockStorageError.indexOutOfBounds k
            (s.storage.length + countBlocks pre)) := by
      simp [extendLoop, hlen, hk]
    show (extendLoop s.storage (pre ++ ParameterBlockOrIndex.index k :: post)).2 = _
    rw [h2, hout]
    rfl
  · intro hk
    have h2 := (extendLoop_append_ok pre s.storage i₁
      [ParameterBlockOrIndex.index k] hpre').2
    have hin : (extendLoop (extendLoop s.storage pre).1
        [ParameterBlockOrIndex.index k]).2 = Except.ok [k] := by
      have hnle : ¬ (extendLoop s.storage pre).1.length ≤ k := by omega
      simp [extendLoop, hnle, Except.map]
    show (extendLoop s.storage (pre ++ [ParameterBlockOrIndex.index k])).2 = _
    rw [h2, hin]
    rfl

/-- Concrete instance of claim C6: on a one-block storage, after a prefix
adding one new block, index 2 is rejected with `index = 2, len = 2` even
though a further block follows in the same input, while index 1 (just
created by the prefix) resolves. -/
theorem claim_C6_witness :
    (ParameterBlockStorage.extend { storage := [ParameterBlock.pinned [1.0] 3] }
        ([ParameterBlockOrIndex.block (ParameterBlock.pinned [2.0] 9)] ++
          ParameterBlockOrIndex.index 2 ::
            [ParameterBlockOrIndex.block (ParameterBlock.pinned [5.0] 11)])).2
      = Except.error (ParameterBlockStorageError.indexOutOfBounds 2 2)
    ∧ (ParameterBlockStorage.extend { storage := [ParameterBlock.pinned [1.0] 3] }
        ([ParameterBlockOrIndex.block (ParameterBlock.pinned [2.0] 9)] ++
          [ParameterBlockOrIndex.index 1])).2 = Except.ok ([1] ++ [1]) :=
  ⟨(claim_C6_extend_in_order_validation { storage := [ParameterBlock.pinned [1.0] 3] }
      [ParameterBlockOrIndex.block (ParameterBlock.pinned [2.0] 9)]
      [ParameterBlockOrIndex.block (ParameterBlock.pinned [5.0] 11)] 2 [1] rfl).1
      (by decide),
   (claim_C6_extend_in_order_validation { storage := [ParameterBlock.pinned [1.0] 3] }
      [ParameterBlockOrIndex.block (ParameterBlock.pinned [2.0] 9)] [] 1 [1] rfl).2
      (by decide)⟩

/-- Claim C9: `ParameterBlockStorage::extend` is not atomic on failure: when
the entry after a successfully processed prefix `pre` is an out-of-range
index, the new blocks of `pre` have already been appended and stay appended;
the resulting storage is the old storage followed by exactly the new-block
entries of `pre`, so its length is the old length plus their number (the
partially computed index list is discarded with the error). -/
theorem claim_C9_extend_partial_mutation_on_failure (s : ParameterBlockStorage)
    (pre post : List ParameterBlockOrIndex) (k : Nat) (i₁ : List Nat)
    (hpre : (s.extend pre).2 = Except.ok i₁)
    (hk : s.storage.length + countBlocks pre ≤ k) :
    (s.extend (pre ++ ParameterBlockOrIndex.index k :: post)).1.storage
      = s.storage ++ newBlocks pre
    ∧ (s.extend (pre ++ ParameterBlockOrIndex.index k :: post)).1.storage.length
      = s.storage.length + countBlocks pre := by
  have hpre' : (extendLoop s.storage pre).2 = Except.ok i₁ := hpre
  have hlen := extendLoop_ok_length pre s.storage i₁ hpre'
  have h1 := (extendLoop_append_ok pre s.storage i₁
    (ParameterBlockOrIndex.index k :: post) hpre').1
  have hstop : (extendLoop (extendLoop s.storage pre).1
      (ParameterBlockOrIndex.index k :: post)).1 = (extendLoop s.storage pre).1 := by
    rw [← hlen] at hk
    simp [extendLoop, hk]
  have hst : (s.extend (pre ++ ParameterBlockOrIndex.index k :: post)).1.storage
      = s.storage ++ newBlocks pre := by
    show (extendLoop s.storage (pre ++ ParameterBlockOrIndex.index k :: post)).1 = _
    rw [h1, hstop, extendLoop_ok_storage pre s.storage i₁ hpre']
  refine ⟨hst, ?_⟩
  rw [hst, List.length_append, countBlocks_eq_length_newBlocks]

/-- Concrete instance of claim C9: the failing call appended the prefix's new
block and kept it, leaving two blocks in the storage. -/
theorem claim_C9_witness :
    (ParameterBlockStorage.extend { storage := [ParameterBlock.pinned [1.0] 3] }
        ([ParameterBlockOrIndex.block (ParameterBlock.pinned [2.0] 9)] ++
          ParameterBlockOrIndex.index 7 ::
            [ParameterBlockOrIndex.block (ParameterBlock.pinned [5.0] 11)])).1.storage
      = [ParameterBlock.pinned [1.0] 3] ++
          newBlocks [ParameterBlockOrIndex.block (ParameterBlock.pinned [2.0] 9)] :=
  (claim_C9_extend_partial_mutation_on_failure
    { storage := [ParameterBlock.pinned [1.0] 3] }
    [ParameterBlockOrIndex.block (ParameterBlock.pinned [2.0] 9)]
    [ParameterBlockOrIndex.block (ParameterBlock.pinned [5.0] 11)] 7 [1] rfl
    (by decide)).1

/-- Claim C8: `ParameterBlock::new` and `Parameters::new` panic (modelled by
`none`) on an empty values vector, and every successfully constructed value
satisfies `len() ≥ 1`: the non-emptiness invariant is enforced by an
assertion in the public constructor, not by a recoverable error. -/
theorem claim_C8_constructors_assert_nonempty :
    (∀ addr : Nat, ParameterBlock.new [] addr = none)
    ∧ (∀ (values : List Float) (addr : Nat) (b : ParameterBlock),
        ParameterBlock.new values addr = some b → 1 ≤ b.len)
    ∧ Parameters.new [] = none
    ∧ (∀ (values : List (List Float)) (p : Parameters),
        Parameters.new values = some p → 1 ≤ p.len) := by
  refine ⟨fun _ => rfl, ?_, rfl, ?_⟩
  · intro values addr b h
    unfold ParameterBlock.new at h
    split at h
    · exact Option.noConfusion h
    next hemp =>
      obtain rfl := Option.some.inj h
      have hne : values ≠ [] := by simpa using hemp
      simpa [ParameterBlock.len, ParameterBlock.pinned] using List.length_pos.mpr hne
  · intro values p h
    unfold Parameters.new at h
    split at h
    · exact Option.noConfusion h
    next hemp =>
      obtain rfl := Option.some.inj h
      have hne : values ≠ [] := by simpa using hemp
      simpa [Parameters.len] using List.length_pos.mpr hne

/-- Concrete instance of claim C8: the empty vector is rejected, a singleton
vector yields a block of length at least one. -/
theorem claim_C8_witness :
    ParameterBlock.new [] 0 = none
    ∧ 1 ≤ (ParameterBlock.pinned [1.0] 5).len :=
  ⟨claim_C8_constructors_assert_nonempty.1 0,
   claim_C8_constructors_assert_nonempty.2.1 [1.0] 5 (ParameterBlock.pinned [1.0] 5) rfl⟩

/-- Claim C4: `NllsProblem::solve` on a problem with no residual blocks fails
with `NoResidualBlocks` and performs zero invocations of the native
`ffi::solve` entry point; on a problem with at least one residual block it
invokes the native entry point exactly once and returns `Ok` with the
parameters equal to the storage's block values, one plain vector per block,
in registration order. -/
theorem claim_C4_solve_no_residual_blocks (p : NllsProblem) :
    (p.residual_blocks = [] →
      p.solve = (Except.error NllsProblemError.noResidualBlocks, 0))
    ∧ (p.residual_blocks ≠ [] →
      p.solve = (Except.ok
        { parameters := p.parameter_storage.storage.map ParameterBlock.to_values }, 1)) := by
  constructor
  · intro h
    simp [NllsProblem.solve, h]
  · intro h
    simp [NllsProblem.solve, ParameterBlockStorage.to_values, h]

/-- Concrete instance of claim C4: the empty problem's solve makes no native
call; a one-block problem's solve makes exactly one and returns the block
values. -/
theorem claim_C4_witness :
    NllsProblem.solve NllsProblem.new = (Except.error NllsProblemError.noResidualBlocks, 0)
    ∧ NllsProblem.solve
        { parameter_storage := { storage := [ParameterBlock.pinned [4.0] 8] },
          residual_blocks := [{ id := 0, parameter_pointers := [8] }] }
      = (Except.ok { parameters := [ParameterBlock.pinned [4.0] 8].map ParameterBlock.to_values }, 1) :=
  ⟨(claim_C4_solve_no_residual_blocks NllsProblem.new).1 rfl,
   (claim_C4_solve_no_residual_blocks
      { parameter_storage := { storage := [ParameterBlock.pinned [4.0] 8] },
        residual_blocks := [{ id := 0, parameter_pointers := [8] }] }).2 (by simp)⟩

/-! Helper lemmas about `readSlice`, `chunksExact` and the callback bridge. -/

lemma readSlice_length (mem : Mem) : ∀ (n p : Nat), (readSlice mem p n).length = n := by
  intro n
  induction n with
  | zero => intro p; rfl
  | succ n ih => intro p; simp [readSlice, ih]

lemma readSlice_add (mem : Mem) : ∀ (a b p : Nat),
    readSlice mem p (a + b) = readSlice mem p a ++ readSlice mem (p + a) b := by
  intro a
  induction a with
  | zero => intro b p; simp [readSlice]
  | succ a ih =>
    intro b p
    have h1 : a + 1 + b = (a + b) + 1 := by omega
    have h2 : p + (a + 1) = (p + 1) + a := by omega
    rw [h1]
    show mem p :: readSlice mem (p + 1) (a + b) = _
    rw [ih b (p + 1), h2]
    rfl

lemma readSlice_get? (mem : Mem) : ∀ (n k p : Nat), k < n →
    (readSlice mem p n).get? k = some (mem (p + k)) := by
  intro n
  induction n with
  | zero => intro k p h; omega
  | succ n ih =>
    intro k p h
    cases k with
    | zero => simp [readSlice]
    | succ k =>
      have := ih k (p + 1) (by omega)
      simp only [readSlice, List.get?_cons_succ, this]
      congr 2
      omega

lemma chunksExact_eq_nil (k : Nat) (l : List Float) (h : k = 0 ∨ l.length < k) :
    chunksExact k l = [] := by
  rw [chunksExact]
  exact dif_pos h

lemma chunksExact_eq_cons (k : Nat) (l : List Float) (hk : k ≠ 0) (hl : k ≤ l.length) :
    chunksExact k l = l.take k :: chunksExact k (l.drop k) := by
  rw [chunksExact]
  rw [dif_neg]
  rintro (h0 | hlt)
  · exact hk h0
  · omega

lemma chunksExact_readSlice (mem : Mem) (s : Nat) (hs : 0 < s) :
    ∀ (r p : Nat), chunksExact s (readSlice mem p (s * r))
      = (List.range r).map fun j => readSlice mem (p + j * s) s := by
  intro r
  induction r with
  | zero =>
    intro p
    rw [Nat.mul_zero]
    exact chunksExact_eq_nil s _ (Or.inr (by simp only [readSlice, List.length_nil]; exact hs))
  | succ r ih =>
    intro p
    have hsplit : s * (r + 1) = s + s * r := by ring
    have hlen2 : s ≤ (readSlice mem p s ++ readSlice mem (p + s) (s * r)).length := by
      rw [List.length_append, readSlice_length, readSlice_length]
      exact Nat.le_add_right s (s * r)
    rw [hsplit, readSlice_add]
    rw [chunksExact_eq_cons s _ (Nat.pos_iff_ne_zero.mp hs) hlen2]
    have htake : (readSlice mem p s ++ readSlice mem (p + s) (s * r)).take s
        = readSlice mem p s := by
      rw [List.take_left' (readSlice_length mem s p)]
    have hdrop : (readSlice mem p s ++ readSlice mem (p + s) (s * r)).drop s
        = readSlice mem (p + s) (s * r) := by
      rw [List.drop_left' (readSlice_length mem s p)]
    rw [htake, hdrop, ih (p + s), List.range_succ_eq_map, List.map_cons, List.map_map]
    congr 1
    · simp
    · apply List.map_congr_left
      intro j _
      simp only [Function.comp_apply, Nat.succ_eq_add_one]
      congr 1
      ring

lemma get?_zip {α β : Type} (l₁ : List α) : ∀ (l₂ : List β) (i : Nat),
    (l₁.zip l₂).get? i =
      match l₁.get? i, l₂.get? i with
      | some a, some b => some (a, b)
      | _, _ => none := by
  induction l₁ with
  | nil =>
    intro l₂ i
    cases h : l₂.get? i <;> rfl
  | cons a rest ih =>
    intro l₂ i
    cases l₂ with
    | nil =>
      cases i with
      | zero => rfl
      | succ i =>
        show (none : Option (α × β)) =
          match (a :: rest).get? (i + 1), ([] : List β).get? (i + 1) with
          | some a, some b => some (a, b)
          | _, _ => none
        simp only [List.get?_cons_succ, List.get?_nil]
        cases h : rest.get? i <;> rfl
    | cons b l₂' =>
      cases i with
      | zero => rfl
      | succ i => exact ih l₂' i

lemma bridgedParameters_get? (mem : Mem) (pp : Nat → Nat) (sizes : List Nat) (i : Nat) :
    (bridgedParameters mem pp sizes).get? i
      = (sizes.get? i).map fun s => readSlice mem (pp i) s := by
  unfold bridgedParameters
  rw [List.get?_map, get?_zip, List.get?_map]
  by_cases hi : i < sizes.length
  · rw [List.get?_range (by simpa using hi)]
    obtain ⟨s, hs⟩ : ∃ s, sizes.get? i = some s := by
      cases h : sizes.get? i with
      | none => exact absurd (List.get?_eq_none.mp h) (by omega)
      | some s => exact ⟨s, rfl⟩
    rw [hs]
    rfl
  · have h1 : sizes.get? i = none := List.get?_eq_none.mpr (by omega)
    have h2 : (List.range sizes.length).get? i = none :=
      List.get?_eq_none.mpr (by rw [List.length_range]; omega)
    rw [h1, h2]
    rfl

lemma ownedJacobian_get? (mem : Mem) (jpf : Nat → Option Nat) (sizes : List Nat)
    (r i : Nat) :
    ((OwnedJacobian.from_pointer mem (some jpf) sizes r).getD []).get? i
      = (sizes.get? i).map fun s => OwnedDerivative.from_pointer mem (jpf i) s r := by
  unfold OwnedJacobian.from_pointer
  simp only [Option.getD_some]
  rw [List.get?_map, get?_zip, List.get?_map]
  by_cases hi : i < sizes.length
  · rw [List.get?_range (by simpa using hi)]
    obtain ⟨s, hs⟩ : ∃ s, sizes.get? i = some s := by
      cases h : sizes.get? i with
      | none => exact absurd (List.get?_eq_none.mp h) (by omega)
      | some s => exact ⟨s, rfl⟩
    rw [hs]
    rfl
  · have h1 : sizes.get? i = none := List.get?_eq_none.mpr (by omega)
    have h2 : (List.range sizes.length).get? i = none :=
      List.get?_eq_none.mpr (by rw [List.length_range]; omega)
    rw [h1, h2]
    rfl

/-- Claim C2: for every parameter-size vector and residual count, the bridged
cost callback hands the wrapped closure exactly `sizes.length` parameter
slices whose lengths are the declared sizes, a residual slice of the declared
residual count, and, for each block with a non-null Jacobian pointer `p`,
a view of `num_residuals` rows of length `sizes[i]` in which row `j` is the
flat native buffer at offsets `p + j*sizes[i] .. p + j*sizes[i] + sizes[i]-1`
(row major: row `j`, column `k` aliases flat element `j*sizes[i] + k`); the
closure's boolean result is returned to the native side verbatim. -/
theorem claim_C2_bridge_shapes (f : CostClosure) (sizes : List Nat) (r : Nat)
    (mem : Mem) (pp : Nat → Nat) (rp : Nat) (jp : Option (Nat → Option Nat)) :
    CostFunction.call f sizes r mem pp rp jp
      = f (bridgedParameters mem pp sizes) (readSlice mem rp r)
          (OwnedJacobian.from_pointer mem jp sizes r)
    ∧ (bridgedParameters mem pp sizes).length = sizes.length
    ∧ (∀ i, ((bridgedParameters mem pp sizes).get? i).map List.length = sizes.get? i)
    ∧ (readSlice mem rp r).length = r
    ∧ (∀ (jpf : Nat → Option Nat) (i s p : Nat),
        jp = some jpf → sizes.get? i = some s → 0 < s → jpf i = some p →
        ((OwnedJacobian.from_pointer mem jp sizes r).getD []).get? i
          = some (some ((List.range r).map fun j => readSlice mem (p + j * s) s)))
    ∧ (∀ q n k : Nat, k < n → (readSlice mem q n).get? k = some (mem (q + k))) := by
  refine ⟨rfl, ?_, ?_, readSlice_length mem r rp, ?_, fun q n k h => readSlice_get? mem n k q h⟩
  · simp [bridgedParameters, List.length_zip]
  · intro i
    rw [bridgedParameters_get?]
    cases h : sizes.get? i with
    | none => rfl
    | some s => simp [readSlice_length]
  · intro jpf i s p hjp hsz hs hp
    subst hjp
    rw [ownedJacobian_get?, hsz]
    show some (OwnedDerivative.from_pointer mem (jpf i) s r) = _
    rw [hp]
    show some (some (chunksExact s (readSlice mem p (s * r)))) = _
    rw [chunksExact_readSlice mem s hs r p]

/-- Concrete instance of claim C2: with sizes `[1, 2]` and two residuals, the
bridge produces two parameter slices of lengths 1 and 2, a residual slice of
length 2, and for block 1 (pointer 100) the two rows at offsets 100 and 102. -/
theorem claim_C2_witness :
    (bridgedParameters (fun n => Float.ofNat n) (fun i => 10 * (i + 1)) [1, 2]).length = 2
    ∧ ((bridgedParameters (fun n => Float.ofNat n) (fun i => 10 * (i + 1)) [1, 2]).get? 1).map
        List.length = some 2
    ∧ (readSlice (fun n => Float.ofNat n) 50 2).length = 2
    ∧ ((OwnedJacobian.from_pointer (fun n => Float.ofNat n)
          (some fun i => if i == 0 then none else some 100) [1, 2] 2).getD []).get? 1
        = some (some ((List.range 2).map fun j =>
            readSlice (fun n => Float.ofNat n) (100 + j * 2) 2)) :=
  ⟨(claim_C2_bridge_shapes (fun _ _ _ => true) [1, 2] 2 (fun n => Float.ofNat n)
      (fun i => 10 * (i + 1)) 50 (some fun i => if i == 0 then none else some 100)).2.1,
   by
    have h := (claim_C2_bridge_shapes (fun _ _ _ => true) [1, 2] 2 (fun n => Float.ofNat n)
      (fun i => 10 * (i + 1)) 50 (some fun i => if i == 0 then none else some 100)).2.2.1 1
    rw [h]
    rfl,
   (claim_C2_bridge_shapes (fun _ _ _ => true) [1, 2] 2 (fun n => Float.ofNat n)
      (fun i => 10 * (i + 1)) 50 (some fun i => if i == 0 then none else some 100)).2.2.2.1,
   (claim_C2_bridge_shapes (fun _ _ _ => true) [1, 2] 2 (fun n => Float.ofNat n)
      (fun i => 10 * (i + 1)) 50 (some fun i => if i == 0 then none else some 100)).2.2.2.2.1
      (fun i => if i == 0 then none else some 100) 1 2 100 rfl rfl (by decide) rfl⟩

/-- Claim C3: a null Jacobian pointer array reaches the closure as `None`;
a non-null array reaches it as `Some`, and the per-block entry is `Some`
exactly at the positions whose native pointer is non-null and `None` exactly
at the null positions. -/
theorem claim_C3_null_jacobian_passthrough (mem : Mem) (sizes : List Nat) (r : Nat) :
    OwnedJacobian.from_pointer mem none sizes r = none
    ∧ (∀ jpf : Nat → Option Nat,
        (OwnedJacobian.from_pointer mem (some jpf) sizes r).isSome = true)
    ∧ (∀ (jpf : Nat → Option Nat) (i : Nat), i < sizes.length →
        (((OwnedJacobian.from_pointer mem (some jpf) sizes r).getD []).get? i).map
            Option.isSome
          = some (jpf i).isSome) := by
  refine ⟨rfl, fun jpf => rfl, ?_⟩
  intro jpf i hi
  rw [ownedJacobian_get?]
  obtain ⟨s, hs⟩ : ∃ s, sizes.get? i = some s := by
    cases h : sizes.get? i with
    | none => exact absurd (List.get?_eq_none.mp h) (by omega)
    | some s => exact ⟨s, rfl⟩
  rw [hs]
  show some ((OwnedDerivative.from_pointer mem (jpf i) s r).isSome) = some (jpf i).isSome
  cases hp : jpf i <;> rfl

/-- Concrete instance of claim C3: the null array yields `None`; with block 0
null and block 1 non-null, the closure sees `None` at 0 and `Some` at 1. -/
theorem claim_C3_witness :
    OwnedJacobian.from_pointer (fun _ => (0 : Float)) none [1, 2] 3 = none
    ∧ (((OwnedJacobian.from_pointer (fun _ => (0 : Float))
          (some fun i => if i == 0 then none else some 7) [1, 2] 3).getD []).get? 0).map
        Option.isSome = some ((if (0 : Nat) == 0 then (none : Option Nat) else some 7).isSome)
    ∧ (((OwnedJacobian.from_pointer (fun _ => (0 : Float))
          (some fun i => if i == 0 then none else some 7) [1, 2] 3).getD []).get? 1).map
        Option.isSome = some ((if (1 : Nat) == 0 then (none : Option Nat) else some 7).isSome) :=
  ⟨(claim_C3_null_jacobian_passthrough (fun _ => (0 : Float)) [1, 2] 3).1,
   (claim_C3_null_jacobian_passthrough (fun _ => (0 : Float)) [1, 2] 3).2.2
      (fun i => if i == 0 then none else some 7) 0 (by decide),
   (claim_C3_null_jacobian_passthrough (fun _ => (0 : Float)) [1, 2] 3).2.2
      (fun i => if i == 0 then none else some 7) 1 (by decide)⟩

/-! Helper definitions and lemmas for the builder claims C5 and C7. -/

/-- Number of native bound-setting calls carrying a given block pointer and
component index. -/
def countBoundCalls (ptr comp : Nat) (calls : List BoundCall) : Nat :=
  (calls.filter fun c => c.pointer == ptr && c.component == comp).length

/-- The declared bound of component `i` in an optional bounds vector: `none`
when the vector is absent, the component is past the end, or the component
is unbounded. -/
def componentBound (bounds : Option (List (Option Float))) (i : Nat) : Option Float :=
  match bounds with
  | none => none
  | some l => (l.get? i).getD none

lemma boundCallsFrom_pointer (ptr : Nat) :
    ∀ (l : List (Option Float)) (i0 : Nat) (c : BoundCall),
      c ∈ boundCallsFrom ptr i0 l → c.pointer = ptr := by
  intro l
  induction l with
  | nil => intro i0 c hc; cases hc
  | cons ob rest ih =>
    intro i0 c hc
    cases ob with
    | none => exact ih (i0 + 1) c hc
    | some v =>
      rcases List.mem_cons.mp hc with h | h
      · rw [h]
      · exact ih (i0 + 1) c h

lemma blockLowerCalls_pointer (b : ParameterBlock) (c : BoundCall)
    (hc : c ∈ blockLowerCalls b) : c.pointer = b.pointer := by
  unfold blockLowerCalls at hc
  rcases hlb : b.lower_bounds with _ | lbs <;> rw [hlb] at hc
  · cases hc
  · exact boundCallsFrom_pointer b.pointer lbs 0 c hc

lemma blockUpperCalls_pointer (b : ParameterBlock) (c : BoundCall)
    (hc : c ∈ blockUpperCalls b) : c.pointer = b.pointer := by
  unfold blockUpperCalls at hc
  rcases hub : b.upper_bounds with _ | ubs <;> rw [hub] at hc
  · cases hc
  · exact boundCallsFrom_pointer b.pointer ubs 0 c hc

lemma filter_boundCallsFrom (ptr i : Nat) : ∀ (l : List (Option Float)) (i0 : Nat),
    (boundCallsFrom ptr i0 l).filter (fun c => c.pointer == ptr && c.component == i)
      = if i0 ≤ i then
          ((l.get? (i - i0)).getD none).elim []
            (fun v => [{ pointer := ptr, component := i, value := v }])
        else [] := by
  intro l
  induction l with
  | nil =>
    intro i0
    simp only [boundCallsFrom, List.filter_nil]
    split <;> rfl
  | cons ob rest ih =>
    intro i0
    cases ob with
    | none =>
      rw [show boundCallsFrom ptr i0 (none :: rest) = boundCallsFrom ptr (i0 + 1) rest from rfl,
        ih (i0 + 1)]
      by_cases h1 : i0 + 1 ≤ i
      · rw [if_pos h1, if_pos (by omega)]
        have hsub : i - i0 = (i - (i0 + 1)) + 1 := by omega
        rw [hsub]
        rfl
      · rw [if_neg h1]
        by_cases h2 : i0 ≤ i
        · rw [if_pos h2]
          have hsub : i - i0 = 0 := by omega
          rw [hsub]
          rfl
        · rw [if_neg h2]
    | some v =>
      show (({ pointer := ptr, component := i0, value := v } : BoundCall)
          :: boundCallsFrom ptr (i0 + 1) rest).filter _ = _
      rw [List.filter_cons]
      by_cases hoi : i0 = i
      · subst hoi
        rw [if_pos (by simp)]
        rw [ih (i0 + 1), if_neg (by omega), if_pos (le_refl i0)]
        have hsub : i0 - i0 = 0 := by omega
        rw [hsub]
        rfl
      · rw [if_neg (by simp [hoi])]
        rw [ih (i0 + 1)]
        by_cases h1 : i0 + 1 ≤ i
        · rw [if_pos h1, if_pos (by omega)]
          have hsub : i - i0 = (i - (i0 + 1)) + 1 := by omega
          rw [hsub]
          rfl
        · rw [if_neg h1, if_neg (by omega)]

lemma filter_blockLowerCalls (b : ParameterBlock) (i : Nat) :
    (blockLowerCalls b).filter (fun c => c.pointer == b.pointer && c.component == i)
      = (componentBound b.lower_bounds i).elim []
          (fun v => [{ pointer := b.pointer, component := i, value := v }]) := by
  rcases hlb : b.lower_bounds with _ | lbs
  · simp [blockLowerCalls, componentBound, hlb]
  · rw [show blockLowerCalls b = boundCallsFrom b.pointer 0 lbs from by
      unfold blockLowerCalls; rw [hlb]]
    rw [filter_boundCallsFrom, if_pos (Nat.zero_le i)]
    simp [componentBound, hlb]

lemma filter_blockUpperCalls (b : ParameterBlock) (i : Nat) :
    (blockUpperCalls b).filter (fun c => c.pointer == b.pointer && c.component == i)
      = (componentBound b.upper_bounds i).elim []
          (fun v => [{ pointer := b.pointer, component := i, value := v }]) := by
  rcases hub : b.upper_bounds with _ | ubs
  · simp [blockUpperCalls, componentBound, hub]
  · rw [show blockUpperCalls b = boundCallsFrom b.pointer 0 ubs from by
      unfold blockUpperCalls; rw [hub]]
    rw [filter_boundCallsFrom, if_pos (Nat.zero_le i)]
    simp [componentBound, hub]

lemma filter_boundsTrace_nil (storage : List ParameterBlock) (ptr i : Nat)
    (callsOf : ParameterBlock → List BoundCall)
    (hptr : ∀ b c, c ∈ callsOf b → c.pointer = b.pointer) :
    ∀ idxs : List Nat, (∀ j ∈ idxs, (blockAt storage j).pointer ≠ ptr) →
      (boundsTrace storage idxs callsOf).filter
        (fun c => c.pointer == ptr && c.component == i) = [] := by
  intro idxs
  induction idxs with
  | nil => intro _; rfl
  | cons j rest ih =>
    intro hall
    rw [show boundsTrace storage (j :: rest) callsOf
        = callsOf (blockAt storage j) ++ boundsTrace storage rest callsOf from rfl,
      List.filter_append]
    rw [ih fun j' hj' => hall j' (List.mem_cons_of_mem j hj'), List.append_nil]
    apply List.filter_eq_nil.mpr
    intro c hc
    have hcp := hptr _ c hc
    have hne := hall j (List.mem_cons_self j rest)
    simp [hcp, hne]

lemma filter_boundsTrace_single (storage : List ParameterBlock) (idx : Nat)
    (b : ParameterBlock) (i : Nat) (callsOf : ParameterBlock → List BoundCall)
    (hb : storage.get? idx = some b)
    (hptr : ∀ b' c, c ∈ callsOf b' → c.pointer = b'.pointer) :
    ∀ idxs : List Nat, idxs.count idx = 1 →
      (∀ j ∈ idxs, j ≠ idx → (blockAt storage j).pointer ≠ b.pointer) →
      (boundsTrace storage idxs callsOf).filter
          (fun c => c.pointer == b.pointer && c.component == i)
        = (callsOf b).filter (fun c => c.pointer == b.pointer && c.component == i) := by
  have hat : blockAt storage idx = b := by
    unfold blockAt
    rw [hb]
    rfl
  intro idxs
  induction idxs with
  | nil => intro hcount _; simp at hcount
  | cons j rest ih =>
    intro hcount hdist
    rw [show boundsTrace storage (j :: rest) callsOf
        = callsOf (blockAt storage j) ++ boundsTrace storage rest callsOf from rfl,
      List.filter_append]
    by_cases hji : j = idx
    · subst hji
      have hrest : rest.count j = 0 := by
        rw [List.count_cons_self] at hcount
        omega
      have hnot : j ∉ rest := List.count_eq_zero.mp hrest
      rw [hat]
      rw [filter_boundsTrace_nil storage b.pointer i callsOf hptr rest ?hall, List.append_nil]
      case hall =>
        intro j' hj'
        have hne : j' ≠ j := fun h => hnot (h ▸ hj')
        exact hdist j' (List.mem_cons_of_mem j hj') hne
    · have hcount' : rest.count idx = 1 := by
        have hne : ¬ (idx = j) := fun h => hji h.symm
        simpa [List.count_cons, hne] using hcount
      rw [ih hcount' fun j' hj' hne => hdist j' (List.mem_cons_of_mem j hj') hne]
      have hhead : (callsOf (blockAt storage j)).filter
          (fun c => c.pointer == b.pointer && c.component == i) = [] := by
        apply List.filter_eq_nil.mpr
        intro c hc
        have hcp := hptr _ c hc
        have hne := hdist j (List.mem_cons_self j rest) hji
        simp [hcp, hne]
      rw [hhead, List.nil_append]

/-- Claim C5 counterexample: on a builder with no cost function and an empty
parameter list, `build_into_problem` fails with `MissingParameters`, not with
`MissingCost` as the claim requires for every builder state with no cost set
(the empty-parameter check runs first, `src/nlls_problem.rs` lines 454-456). -/
theorem claim_C5_counterexample :
    (ResidualBlockBuilder.build_into_problem
        { problem := NllsProblem.new, cost := none, loss := none, parameters := [] }).1
      = Except.error ResidualBlockBuildingError.missingParameters
    ∧ ResidualBlockBuildingError.missingParameters ≠ ResidualBlockBuildingError.missingCost :=
  ⟨rfl, by decide⟩

/-- Claim C5 (amended): `build_into_problem` with an empty parameter list
fails with `MissingParameters` (regardless of the cost); with no cost set, a
non-empty parameter list and successfully resolving parameter entries it
fails with `MissingCost`; and in every failure case (including the
index-out-of-bounds one) no native entry point is invoked at all — in
particular no native `add_residual_block` call occurs. -/
theorem claim_C5_amended_validation_errors (bld : ResidualBlockBuilder) :
    (bld.parameters = [] →
      bld.build_into_problem
        = (Except.error ResidualBlockBuildingError.missingParameters, NativeTrace.empty))
    ∧ (∀ idxs : List Nat, bld.cost = none → bld.parameters ≠ [] →
        (bld.problem.parameter_storage.extend bld.parameters).2 = Except.ok idxs →
        bld.build_into_problem
          = (Except.error ResidualBlockBuildingError.missingCost, NativeTrace.empty))
    ∧ (∀ e : ResidualBlockBuildingError, (bld.build_into_problem).1 = Except.error e →
        (bld.build_into_problem).2 = NativeTrace.empty) := by
  refine ⟨?_, ?_, ?_⟩
  · intro h
    simp [ResidualBlockBuilder.build_into_problem, h]
  · intro idxs hc hne hext
    have hemp : bld.parameters.isEmpty = false := by
      cases hp : bld.parameters with
      | nil => exact absurd hp hne
      | cons a l => rfl
    unfold ResidualBlockBuilder.build_into_problem
    rw [hext, hc]
    simp [hemp]
  · intro e h
    have aux : (∃ pi : NllsProblem × Nat, (bld.build_into_problem).1 = Except.ok pi)
        ∨ (bld.build_into_problem).2 = NativeTrace.empty := by
      unfold ResidualBlockBuilder.build_into_problem
      split
      · exact Or.inr rfl
      · split
        · exact Or.inr rfl
        · split
          · exact Or.inr rfl
          · exact Or.inl ⟨_, rfl⟩
    rcases aux with ⟨pi, hok⟩ | hemp
    · exact absurd (h.symm.trans hok) (by simp)
    · exact hemp

/-- Concrete instances of claim C5 (amended): empty parameters give
`MissingParameters` even with a cost set; no cost with one valid new block
gives `MissingCost`; neither invokes any native call. -/
theorem claim_C5_witness :
    ResidualBlockBuilder.build_into_problem
        { problem := NllsProblem.new, cost := some (fun _ _ _ => true, 1),
          loss := none, parameters := [] }
      = (Except.error ResidualBlockBuildingError.missingParameters, NativeTrace.empty)
    ∧ ResidualBlockBuilder.build_into_problem
        { problem := NllsProblem.new, cost := none, loss := none,
          parameters := [ParameterBlockOrIndex.block (ParameterBlock.pinned [1.0] 4)] }
      = (Except.error ResidualBlockBuildingError.missingCost, NativeTrace.empty) :=
  ⟨(claim_C5_amended_validation_errors
      { problem := NllsProblem.new, cost := some (fun _ _ _ => true, 1),
        loss := none, parameters := [] }).1 rfl,
   (claim_C5_amended_validation_errors
      { problem := NllsProblem.new, cost := none, loss := none,
        parameters := [ParameterBlockOrIndex.block (ParameterBlock.pinned [1.0] 4)] }).2.1
      [0] rfl (by simp) rfl⟩

/-- Claim C7 counterexample: a successful `build_into_problem` whose parameter
list mentions the same block twice (once as a new block, once by index)
issues two native `SetParameterLowerBound` calls for the block's single
bounded component, not exactly one as the claim states. -/
theorem claim_C7_counterexample :
    countBoundCalls 11 0
      ((ResidualBlockBuilder.build_into_problem
        { problem := NllsProblem.new,
          cost := some (fun _ _ _ => true, 1), loss := none,
          parameters := [ParameterBlockOrIndex.block
              { values := [1.0], pointer := 11,
                lower_bounds := some [some 2.0], upper_bounds := none },
            ParameterBlockOrIndex.index 0] }).2.lower_bound_calls) = 2
    ∧ (2 : Nat) ≠ 1 :=
  ⟨rfl, by decide⟩

/-- Claim C7 (amended): during a successful `build_into_problem` call, a
parameter block touched by the call whose resolved index occurs exactly once
in the resolved index list (and whose buffer address differs from the other
touched blocks') receives, for each component, exactly the native
`SetParameterLowerBound` (resp. `SetParameterUpperBound`) calls its declared
bounds prescribe: one call carrying the block's pointer, the component index
and the bound value when the component's bound is `Some`, and no call when
it is `None` or the block declares no bounds.  (When an index occurs `m`
times in the list the calls are issued `m` times, as the counterexample
shows.) -/
theorem claim_C7_amended_bound_propagation (bld : ResidualBlockBuilder)
    (p' : NllsProblem) (rid : Nat) (trace : NativeTrace)
    (hok : bld.build_into_problem = (Except.ok (p', rid), trace))
    (idxs : List Nat)
    (hext : (bld.problem.parameter_storage.extend bld.parameters).2 = Except.ok idxs)
    (idx : Nat) (b : ParameterBlock)
    (hb : p'.parameter_storage.storage.get? idx = some b)
    (hcount : idxs.count idx = 1)
    (hdist : ∀ j ∈ idxs, j ≠ idx →
      (blockAt p'.parameter_storage.storage j).pointer ≠ b.pointer) :
    (∀ i, trace.lower_bound_calls.filter
        (fun c => c.pointer == b.pointer && c.component == i)
      = (componentBound b.lower_bounds i).elim []
          (fun v => [{ pointer := b.pointer, component := i, value := v }]))
    ∧ (∀ i, trace.upper_bound_calls.filter
        (fun c => c.pointer == b.pointer && c.component == i)
      = (componentBound b.upper_bounds i).elim []
          (fun v => [{ pointer := b.pointer, component := i, value := v }])) := by
  have hemp : bld.parameters.isEmpty = false := by
    cases hp : bld.parameters with
    | nil =>
      rw [hp] at hext
      exfalso
      unfold ResidualBlockBuilder.build_into_problem at hok
      rw [hp] at hok
      simp at hok
    | cons a l => rfl
  unfold ResidualBlockBuilder.build_into_problem at hok
  rw [hext] at hok
  simp only [hemp, Bool.false_eq_true, if_false] at hok
  cases hc : bld.cost with
  | none =>
    rw [hc] at hok
    simp at hok
  | some cpair =>
    rw [hc] at hok
    simp only [Except.ok.injEq, Prod.mk.injEq] at hok
    obtain ⟨⟨hp', -⟩, htr⟩ := hok
    have hstor : p'.parameter_storage
        = (bld.problem.parameter_storage.extend bld.parameters).1 := by
      rw [← hp']
    subst htr
    constructor
    · intro i
      show (boundsTrace (bld.problem.parameter_storage.extend bld.parameters).1.storage
          idxs blockLowerCalls).filter _ = _
      rw [filter_boundsTrace_single
          (bld.problem.parameter_storage.extend bld.parameters).1.storage idx b i
          blockLowerCalls (by rw [← hstor]; exact hb) blockLowerCalls_pointer idxs hcount
          (by rw [← hstor]; exact hdist)]
      exact filter_blockLowerCalls b i
    · intro i
      show (boundsTrace (bld.problem.parameter_storage.extend bld.parameters).1.storage
          idxs blockUpperCalls).filter _ = _
      rw [filter_boundsTrace_single
          (bld.problem.parameter_storage.extend bld.parameters).1.storage idx b i
          blockUpperCalls (by rw [← hstor]; exact hb) blockUpperCalls_pointer idxs hcount
          (by rw [← hstor]; exact hdist)]
      exact filter_blockUpperCalls b i

/-- Concrete instance of claim C7 (amended): a single two-component block
with lower bounds `[Some 1.5, None]` and no upper bounds gets exactly one
lower-bound call for component 0, none for component 1, and no upper-bound
call. -/
theorem claim_C7_witness :
    ([{ pointer := 21, component := 0, value := 1.5 }] : List BoundCall).filter
        (fun c => c.pointer == (21 : Nat) && c.component == (0 : Nat))
      = [{ pointer := 21, component := 0, value := 1.5 }]
    ∧ ([{ pointer := 21, component := 0, value := 1.5 }] : List BoundCall).filter
        (fun c => c.pointer == (21 : Nat) && c.component == (1 : Nat)) = []
    ∧ ([] : List BoundCall).filter
        (fun c => c.pointer == (21 : Nat) && c.component == (0 : Nat)) = [] := by
  have h := claim_C7_amended_bound_propagation
    { problem := NllsProblem.new, cost := some (fun _ _ _ => true, 2), loss := none,
      parameters := [ParameterBlockOrIndex.block
        { values := [1.0, 2.0], pointer := 21,
          lower_bounds := some [some 1.5, none], upper_bounds := none }] }
    { parameter_storage := { storage :=
        [{ values := [1.0, 2.0], pointer := 21,
           lower_bounds := some [some 1.5, none], upper_bounds := none }] },
      residual_blocks := [{ id := 0, parameter_pointers := [21] }] }
    0
    { add_residual_block_calls := 1,
      lower_bound_calls := [{ pointer := 21, component := 0, value := 1.5 }],
      upper_bound_calls := [] }
    rfl [0] rfl 0
    { values := [1.0, 2.0], pointer := 21,
      lower_bounds := some [some 1.5, none], upper_bounds := none }
    rfl (by decide)
    (fun j hj hne => absurd (by simpa using hj) hne)
  exact ⟨h.1 0, h.1 1, h.2 0⟩

/-! Helper lemmas for the curve-fit claim C10. -/

lemma newBlocks_map_block (l : List ParameterBlock) :
    newBlocks (l.map ParameterBlockOrIndex.block) = l := by
  induction l with
  | nil => rfl
  | cons b rest ih => simp [newBlocks, ih]

lemma boundsTrace_upper_nil (storage : List ParameterBlock)
    (h : ∀ blk ∈ storage, blk.upper_bounds = none) :
    ∀ idxs : List Nat, boundsTrace storage idxs blockUpperCalls = [] := by
  intro idxs
  induction idxs with
  | nil => rfl
  | cons j rest ih =>
    rw [show boundsTrace storage (j :: rest) blockUpperCalls
        = blockUpperCalls (blockAt storage j) ++ boundsTrace storage rest blockUpperCalls
      from rfl, ih, List.append_nil]
    cases hg : storage.get? j with
    | none =>
      show blockUpperCalls (blockAt storage j) = []
      unfold blockAt
      rw [hg]
      rfl
    | some blk =>
      have hup := h blk (List.get?_mem hg)
      show blockUpperCalls (blockAt storage j) = []
      unfold blockAt
      rw [hg, Option.getD_some]
      unfold blockUpperCalls
      rw [hup]

lemma enum_pinned_upper_unset (params : List Float) :
    ∀ blk ∈ params.enum.map (fun ip => ParameterBlock.pinned [ip.2] ip.1),
      blk.upper_bounds = none := by
  intro blk hblk
  obtain ⟨ip, -, rfl⟩ := List.mem_map.mp hblk
  rfl

lemma applyLowerBounds_upper_unset (blocks : List ParameterBlock)
    (lbs : List (Option Float)) (h : ∀ blk ∈ blocks, blk.upper_bounds = none) :
    ∀ blk ∈ applyLowerBounds blocks lbs, blk.upper_bounds = none := by
  intro blk hblk
  obtain ⟨bl, hbl, rfl⟩ := List.mem_map.mp hblk
  have hmem := (List.mem_zip hbl).1
  cases hob : bl.2 with
  | none => simpa [hob] using h bl.1 hmem
  | some lb => simpa [hob] using h bl.1 hmem

lemma build_into_problem_ok_inv (bld : ResidualBlockBuilder) (problem : NllsProblem)
    (rid : Nat) (trace : NativeTrace)
    (h : bld.build_into_problem = (Except.ok (problem, rid), trace)) :
    ∃ idxs : List Nat,
      (bld.problem.parameter_storage.extend bld.parameters).2 = Except.ok idxs
      ∧ problem.parameter_storage
          = (bld.problem.parameter_storage.extend bld.parameters).1
      ∧ trace.upper_bound_calls = boundsTrace
          (bld.problem.parameter_storage.extend bld.parameters).1.storage idxs
          blockUpperCalls := by
  unfold ResidualBlockBuilder.build_into_problem at h
  by_cases hp : bld.parameters.isEmpty
  · rw [if_pos hp] at h
    simp at h
  · rw [if_neg hp] at h
    cases hext : (bld.problem.parameter_storage.extend bld.parameters).2 with
    | error e => rw [hext] at h; simp at h
    | ok idxs =>
      rw [hext] at h
      cases hc : bld.cost with
      | none => rw [hc] at h; simp at h
      | some cp =>
        rw [hc] at h
        simp only [Prod.mk.injEq, Except.ok.injEq] at h
        obtain ⟨⟨hp', -⟩, htr⟩ := h
        exact ⟨idxs, rfl, by rw [← hp'], by rw [← htr]⟩

lemma fresh_build_upper_unset (blocks : List ParameterBlock)
    (cost : Option (CostClosure × Nat)) (loss : Option LossFunction)
    (p : NllsProblem) (rid : Nat) (tr : NativeTrace)
    (hblocks : ∀ blk ∈ blocks, blk.upper_bounds = none)
    (hb : (ResidualBlockBuilder.mk NllsProblem.new cost loss
        (blocks.map ParameterBlockOrIndex.block)).build_into_problem
      = (Except.ok (p, rid), tr)) :
    (∀ blk ∈ p.parameter_storage.storage, blk.upper_bounds = none)
    ∧ tr.upper_bound_calls = [] := by
  obtain ⟨idxs, hext, hstor, hupper⟩ := build_into_problem_ok_inv _ p rid tr hb
  have hsto : ((ParameterBlockStorage.new).extend
      (blocks.map ParameterBlockOrIndex.block)).1.storage = blocks := by
    have hok : (extendLoop [] (blocks.map ParameterBlockOrIndex.block)).2
        = Except.ok idxs := hext
    have := extendLoop_ok_storage (blocks.map ParameterBlockOrIndex.block) [] idxs hok
    show (extendLoop [] (blocks.map ParameterBlockOrIndex.block)).1 = blocks
    rw [this, newBlocks_map_block, List.nil_append]
  constructor
  · intro blk hblk
    rw [hstor] at hblk
    exact hblocks blk (hsto ▸ hblk)
  · rw [hupper]
    have := boundsTrace_upper_nil blocks hblocks idxs
    show boundsTrace ((ParameterBlockStorage.new).extend
      (blocks.map ParameterBlockOrIndex.block)).1.storage idxs blockUpperCalls = []
    rw [hsto]
    exact this

lemma curveFitBuildTail_upper_unset (x y : List Float) (ie : Option (List Float))
    (func : CurveFunctionType) (loss : Option LossFunction) (cps : Option (List Nat))
    (blocks : List ParameterBlock) (p : NllsProblem) (t : NativeTrace) (c : List Nat)
    (hblocks : ∀ blk ∈ blocks, blk.upper_bounds = none)
    (h : curveFitBuildTail x y ie func loss cps blocks = some (Except.ok (p, t, c))) :
    (∀ blk ∈ p.parameter_storage.storage, blk.upper_bounds = none)
    ∧ t.upper_bound_calls = [] := by
  unfold curveFitBuildTail at h
  cases loss with
  | none =>
    dsimp only at h
    rcases hb : (((NllsProblem.new.residual_block_builder).set_cost
        (CurveFitProblem1D.cost_function x y ie func) x.length).set_parameters
          (blocks.map ParameterBlockOrIndex.block)).build_into_problem with ⟨res, tr⟩
    rw [hb] at h
    cases res with
    | error e => simp at h
    | ok pr =>
      rcases pr with ⟨problem, bid⟩
      have hfresh := fresh_build_upper_unset blocks
        (some (CurveFitProblem1D.cost_function x y ie func, x.length)) none
        problem bid tr hblocks hb
      cases cps with
      | none =>
        simp only [Option.some.injEq, Except.ok.injEq, Prod.mk.injEq] at h
        obtain ⟨h1, h2, -⟩ := h
        exact ⟨h1 ▸ hfresh.1, h2 ▸ hfresh.2⟩
      | some cidxs =>
        dsimp only at h
        cases hcl : constantLoop problem cidxs with
        | error e => rw [hcl] at h; simp at h
        | ok ptrs =>
          rw [hcl] at h
          simp only [Option.some.injEq, Except.ok.injEq, Prod.mk.injEq] at h
          obtain ⟨h1, h2, -⟩ := h
          exact ⟨h1 ▸ hfresh.1, h2 ▸ hfresh.2⟩
  | some l =>
    dsimp only at h
    rcases hb : ((((NllsProblem.new.residual_block_builder).set_cost
        (CurveFitProblem1D.cost_function x y ie func) x.length).set_loss l).set_parameters
          (blocks.map ParameterBlockOrIndex.block)).build_into_problem with ⟨res, tr⟩
    rw [hb] at h
    cases res with
    | error e => simp at h
    | ok pr =>
      rcases pr with ⟨problem, bid⟩
      have hfresh := fresh_build_upper_unset blocks
        (some (CurveFitProblem1D.cost_function x y ie func, x.length)) (some l)
        problem bid tr hblocks hb
      cases cps with
      | none =>
        simp only [Option.some.injEq, Except.ok.injEq, Prod.mk.injEq] at h
        obtain ⟨h1, h2, -⟩ := h
        exact ⟨h1 ▸ hfresh.1, h2 ▸ hfresh.2⟩
      | some cidxs =>
        dsimp only at h
        cases hcl : constantLoop problem cidxs with
        | error e => rw [hcl] at h; simp at h
        | ok ptrs =>
          rw [hcl] at h
          simp only [Option.some.injEq, Except.ok.injEq, Prod.mk.injEq] at h
          obtain ⟨h1, h2, -⟩ := h
          exact ⟨h1 ▸ hfresh.1, h2 ▸ hfresh.2⟩

/-- Claim C10: `CurveFitProblem1DBuilder::build` never applies the upper
bounds supplied through the `upper_bounds` setter: two builds differing only
in the `upper_bounds` field produce identical results (problem, native trace
and constant-parameter calls alike), and on every successful build all
parameter blocks of the constructed problem have their upper bounds unset
and no native `SetParameterUpperBound` call is made. -/
theorem claim_C10_upper_bounds_never_applied (b : CurveFitProblem1DBuilder)
    (ub1 ub2 : Option (List (Option Float))) :
    CurveFitProblem1DBuilder.build { b with upper_bounds := ub1 }
      = CurveFitProblem1DBuilder.build { b with upper_bounds := ub2 }
    ∧ (∀ (p : NllsProblem) (t : NativeTrace) (c : List Nat),
        CurveFitProblem1DBuilder.build b = some (Except.ok (p, t, c)) →
        (∀ blk ∈ p.parameter_storage.storage, blk.upper_bounds = none)
        ∧ t.upper_bound_calls = []) := by
  constructor
  · rfl
  · intro p t c h
    unfold CurveFitProblem1DBuilder.build at h
    cases hf : b.func with
    | none => rw [hf] at h; simp at h
    | some func =>
      simp only [hf] at h
      cases hx : b.x with
      | none => rw [hx] at h; simp at h
      | some x =>
        simp only [hx] at h
        cases hy : b.y with
        | none => rw [hy] at h; simp at h
        | some y =>
          simp only [hy] at h
          split at h
          · simp at h
          · split at h
            · simp at h
            · cases hpar : b.parameters with
              | none => rw [hpar] at h; simp at h
              | some params =>
                simp only [hpar] at h
                cases hlb : b.lower_bounds with
                | none =>
                  simp only [hlb] at h
                  exact curveFitBuildTail_upper_unset x y b.inverse_error func b.loss
                    b.constant_parameters _ p t c (enum_pinned_upper_unset params) h
                | some lbs =>
                  simp only [hlb] at h
                  split at h
                  · simp at h
                  · exact curveFitBuildTail_upper_unset x y b.inverse_error func b.loss
                      b.constant_parameters _ p t c
                      (applyLowerBounds_upper_unset _ lbs (enum_pinned_upper_unset params)) h

/-- Concrete instance of claim C10: a one-parameter curve-fit builder with
upper bound `Some 9.0` builds exactly the same problem as the same builder
with no upper bounds, and the successful build issues no native
`SetParameterUpperBound` call. -/
theorem claim_C10_witness :
    CurveFitProblem1DBuilder.build
        { func := some fun _ _ _ => (true, 0, []),
          x := some [1.0], y := some [2.0], inverse_error := none,
          parameters := some [0.5], lower_bounds := none,
          upper_bounds := some [some 9.0], constant_parameters := none, loss := none }
      = CurveFitProblem1DBuilder.build
        { func := some fun _ _ _ => (true, 0, []),
          x := some [1.0], y := some [2.0], inverse_error := none,
          parameters := some [0.5], lower_bounds := none,
          upper_bounds := none, constant_parameters := none, loss := none }
    ∧ ({ add_residual_block_calls := 1, lower_bound_calls := [],
         upper_bound_calls := [] } : NativeTrace).upper_bound_calls = [] :=
  ⟨(claim_C10_upper_bounds_never_applied
      { func := some fun _ _ _ => (true, 0, []),
        x := some [1.0], y := some [2.0], inverse_error := none,
        parameters := some [0.5], lower_bounds := none,
        upper_bounds := some [some 9.0], constant_parameters := none, loss := none }
      (some [some 9.0]) none).1,
   ((claim_C10_upper_bounds_never_applied
      { func := some fun _ _ _ => (true, 0, []),
        x := some [1.0], y := some [2.0], inverse_error := none,
        parameters := some [0.5], lower_bounds := none,
        upper_bounds := some [some 9.0], constant_parameters := none, loss := none }
      (some [some 9.0]) none).2
      { parameter_storage := { storage := [ParameterBlock.pinned [0.5] 0] },
        residual_blocks := [{ id := 0, parameter_pointers := [0] }] }
      { add_residual_block_calls := 1, lower_bound_calls := [],
        upper_bound_calls := [] }
      [] rfl).2⟩

end CeresRs
